import Mathlib

/-!
# Verification of the s3client interactive shell

Shallow embedding of the s3client command shell (Go sources under
`cmd/s3client/`: `commands.go`, `consoleio.go`) and proofs about its
tokenizer, path resolver, batch-operation engine and command dispatcher.

Go strings are modelled as `List Char` (the code only manipulates them
character-wise via `range`, concatenation, prefix/suffix tests, `Split`,
`Join` and `TrimRight`).  The S3 store is modelled as a list of buckets,
each holding a list of objects (key and size).  Store-mutating client
calls (`RemoveObject`, `CopyObject`, `PutObject`, `MakeBucket`,
`RemoveBucket`) are recorded in an operation trace; a failure oracle
`ok : Op → Bool` decides which store calls succeed, mirroring the
abort-on-first-error handling in the Go code.  Console output
(`printlnf`) and local file-system writes are effect-free with respect
to the store and the session and are elided.
-/

namespace S3Client

/-- Go strings, modelled character-wise. -/
abbrev Str := List Char

/-- Conversion from Lean string literals to the Go string model. -/
def strOf (s : String) : Str := s.toList

/-! ## Tokenizer (`readCmd` in `cmd/s3client/consoleio.go`)

`readCmd` scans input lines character by character, maintaining a token
buffer `sb`, the two quoting modes, an escape flag and the list of
finished tokens `cmd`. -/

/-- The mutable locals of `readCmd`: the `strings.Builder` content, the
`escape`, `doubleQuote` and `singleQuote` flags and the finished tokens. -/
structure TokState where
  sb : Str
  escape : Bool
  doubleQuote : Bool
  singleQuote : Bool
  cmd : List Str
deriving DecidableEq, Repr

/-- One step of the character loop of `readCmd` (consoleio.go:60-102). -/
def procChar (st : TokState) (r : Char) : TokState :=
  if st.singleQuote then
    if r = '\'' then { st with singleQuote := false }
    else { st with sb := st.sb ++ [r] }
  else if st.doubleQuote then
    if st.escape then { st with sb := st.sb ++ [r], escape := false }
    else if r = '"' then { st with doubleQuote := false }
    else if r = '\\' then { st with escape := true }
    else { st with sb := st.sb ++ [r] }
  else if st.escape then { st with sb := st.sb ++ [r], escape := false }
  else if r = '\\' then { st with escape := true }
  else if r = '\'' then { st with singleQuote := true }
  else if r = '"' then { st with doubleQuote := true }
  else if r = ' ' then
    if st.sb.length > 0 then { st with cmd := st.cmd ++ [st.sb], sb := [] }
    else st
  else { st with sb := st.sb ++ [r] }

/-- Processing of one whole input line by `readCmd`. -/
def procLine (st : TokState) (line : Str) : TokState :=
  line.foldl procChar st

/-- The line loop of `readCmd` (consoleio.go:49-116): read a line,
process it, stop when no quote or escape is open (flushing a non-empty
buffer as last token), otherwise append a line break to the buffer and
continue with the next line.  `none` models `readln` failing because the
input is exhausted. -/
def readCmdLoop : List Str → TokState → Option (List Str)
  | [], _ => none
  | line :: rest, st =>
    let st' := procLine st line
    if st'.escape = false ∧ st'.doubleQuote = false ∧ st'.singleQuote = false then
      some (if st'.sb.length > 0 then st'.cmd ++ [st'.sb] else st'.cmd)
    else
      readCmdLoop rest { st' with sb := st'.sb ++ ['\n'] }

/-- `readCmd` on a sequence of available input lines. -/
def readCmd (lines : List Str) : Option (List Str) :=
  readCmdLoop lines ⟨[], false, false, false, []⟩

/-- The two quoting modes are mutually exclusive and the escape flag is
only ever set outside single-quote mode. -/
def modesInv (st : TokState) : Prop :=
  ¬(st.singleQuote = true ∧ st.doubleQuote = true) ∧
    (st.singleQuote = true → st.escape = false)

instance (st : TokState) : Decidable (modesInv st) := by
  unfold modesInv; infer_instance

/-! ## Store model

The S3 store is a list of buckets, each with a name and a flat list of
objects.  `minio.ObjectInfo` carries a key and a size. -/

/-- One stored object (`minio.ObjectInfo`: key and size). -/
structure Obj where
  key : Str
  size : Nat
deriving DecidableEq, Repr

/-- One bucket with its objects. -/
structure BucketData where
  name : Str
  objs : List Obj
deriving DecidableEq, Repr

/-- The whole S3 store. -/
structure S3 where
  buckets : List BucketData
deriving DecidableEq, Repr

/-- `minioClient.BucketExists`. -/
def bucketExists (s3 : S3) (name : Str) : Bool :=
  s3.buckets.any (fun b => b.name == name)

/-- The objects stored in the named bucket (empty if absent). -/
def objsOf (s3 : S3) (name : Str) : List Obj :=
  match s3.buckets.find? (fun b => b.name == name) with
  | some b => b.objs
  | none => []

/-- `minioClient.ListObjectsV2(bucket, pfx, true, doneCh)`: recursive
listing returns every object whose key starts with the filter. -/
def listRecursive (s3 : S3) (bucket pfx : Str) : List Obj :=
  (objsOf s3 bucket).filter (fun o => pfx.isPrefixOf o.key)

/-- Index of the first `'/'` in a key remainder, if any. -/
def firstSlashIdx : Str → Option Nat
  | [] => none
  | c :: rest => if c = '/' then some 0 else (firstSlashIdx rest).map (· + 1)

/-- The entry a shallow (delimiter `"/"`) listing reports for one
matching object: objects whose remainder after the filter contains a
separator are collapsed to their common prefix (a size-0 directory
entry); other objects are reported as themselves. -/
def shallowEntry (pfx : Str) (o : Obj) : Obj :=
  let rest := o.key.drop pfx.length
  match firstSlashIdx rest with
  | some i => ⟨pfx ++ rest.take (i + 1), 0⟩
  | none => o

/-- Keep the first entry for every distinct key (shallow listings report
each common prefix once). -/
def dedupByKey : List Obj → List Str → List Obj
  | [], _ => []
  | o :: rest, seen =>
    if seen.contains o.key then dedupByKey rest seen
    else o :: dedupByKey rest (o.key :: seen)

/-- `minioClient.ListObjectsV2(bucket, pfx, false, doneCh)`: shallow
listing with delimiter `"/"`. -/
def listShallow (objs : List Obj) (pfx : Str) : List Obj :=
  dedupByKey ((objs.filter (fun o => pfx.isPrefixOf o.key)).map (shallowEntry pfx)) []

/-! ## Go string helpers used by the commands -/

/-- `strings.HasSuffix`. -/
def hasSuffix (s suf : Str) : Bool := suf.isSuffixOf s

/-- `strings.TrimRight(s, "/")`: remove all trailing separators. -/
def trimRightSlash (s : Str) : Str :=
  (s.reverse.dropWhile (fun c => c == '/')).reverse

/-- `strings.Split(s, "/")`. -/
def splitOnSlash : Str → List Str
  | [] => [[]]
  | c :: rest =>
    match splitOnSlash rest with
    | [] => [[]]
    | t :: ts => if c = '/' then [] :: t :: ts else (c :: t) :: ts

/-- `strings.Join(parts, "/")`. -/
def joinSlash : List Str → Str
  | [] => []
  | [s] => s
  | s :: rest => s ++ '/' :: joinSlash rest

/-- The `prefix += "/"` normalization used by the recursive branches:
append a separator unless one is already present. -/
def addSlash (p : Str) : Str :=
  if hasSuffix p ['/'] then p else p ++ ['/']

/-! ## stat (commands.go:825-849) -/

/-- Result triple of `stat` (the error return is modelled away: listings
are pure here). -/
structure StatResult where
  isFile : Bool
  isDir : Bool
  size : Nat
deriving DecidableEq, Repr

/-- The listing loop of `stat`: the first entry equal to `dirKey` makes
the key a directory, the first entry equal to `fileKey` makes it a file
of that entry's size. -/
def statLoop (dirKey fileKey : Str) : List Obj → StatResult
  | [] => ⟨false, false, 0⟩
  | o :: rest =>
    if o.key == dirKey then ⟨false, true, 0⟩
    else if o.key == fileKey then ⟨true, false, o.size⟩
    else statLoop dirKey fileKey rest

/-- `stat` strips one trailing separator from the key. -/
def normalizeKey (key : Str) : Str :=
  if hasSuffix key ['/'] then key.dropLast else key

/-- `stat(key)`: shallow listing filtered by the normalized key, scanned
for the directory marker `key ++ "/"` or the file key itself. -/
def stat (s3 : S3) (bucket key0 : Str) : StatResult :=
  let key := normalizeKey key0
  statLoop (key ++ ['/']) key (listShallow (objsOf s3 bucket) key)

/-- `exists(key)` (commands.go:801-807). -/
def existsKey (s3 : S3) (bucket key : Str) : Bool :=
  let st := stat s3 bucket key
  st.isFile || st.isDir

/-! ## Session state, store-mutating operations and command results -/

/-- The process-wide session: `currentBucket` and `currentPrefix`. -/
structure Session where
  currentBucket : Str
  currentPrefix : Str
deriving DecidableEq, Repr

/-- One error per `fmt.Errorf`/failure site reachable in the embedded
commands (Go errors are strings; the constructor identifies the site). -/
inductive GoErr where
  | noBucketEntered
  | missingParameter
  | tooManyArguments
  | noDirSpecified
  | bucketNotExist
  | objectNotExist
  | isAFile
  | dirNotFound
  | rmDirNeedsFlag
  | isADirectory
  | fileNotFound
  | objectExists
  | unknownListType
  | storeError
  | inputEOF
deriving DecidableEq, Repr

/-- A store-mutating client call. -/
inductive Op where
  | removeObject (bucket key : Str)
  | copyObject (bucket srcKey dstKey : Str)
  | putObject (bucket key : Str) (size : Nat)
  | makeBucket (name : Str)
  | removeBucket (name : Str)
deriving DecidableEq, Repr

/-- Rewrite the object list of one bucket. -/
def setObjs (s3 : S3) (bucket : Str) (f : List Obj → List Obj) : S3 :=
  ⟨s3.buckets.map (fun b => if b.name == bucket then ⟨b.name, f b.objs⟩ else b)⟩

/-- Look up an object by key. -/
def findObj (objs : List Obj) (key : Str) : Option Obj :=
  objs.find? (fun o => o.key == key)

/-- Effect of one successful store-mutating call on the store. -/
def applyOp (s3 : S3) : Op → S3
  | .removeObject bucket key =>
    setObjs s3 bucket (fun objs => objs.filter (fun o => !(o.key == key)))
  | .copyObject bucket src dst =>
    match findObj (objsOf s3 bucket) src with
    | some o => setObjs s3 bucket (fun objs => objs ++ [⟨dst, o.size⟩])
    | none => s3
  | .putObject bucket key size =>
    setObjs s3 bucket (fun objs => objs ++ [⟨key, size⟩])
  | .makeBucket name => ⟨s3.buckets ++ [⟨name, []⟩]⟩
  | .removeBucket name => ⟨s3.buckets.filter (fun b => !(b.name == name))⟩

/-- Effect of a trace of successful calls, first to last. -/
def applyOps (s3 : S3) : List Op → S3
  | [] => s3
  | op :: rest => applyOps (applyOp s3 op) rest

/-- Outcome of one command: resulting store, session, the trace of
successful store-mutating calls in order, and the returned error
(`none` = `nil`). -/
structure CmdResult where
  s3 : S3
  sess : Session
  trace : List Op
  err : Option GoErr
deriving DecidableEq, Repr

/-! ## Argument checking (commands.go:780-799) -/

/-- `argOptions`. -/
structure ArgOptions where
  argLabels : List Str
  minArgs : Nat
  requireBucket : Bool

/-- `checkArgs`. -/
def checkArgs (sess : Session) (args : List Str) (o : ArgOptions) : Option GoErr :=
  if o.requireBucket && (sess.currentBucket.length == 0) then some .noBucketEntered
  else if args.length < o.minArgs then some .missingParameter
  else if args.length > o.argLabels.length then some .tooManyArguments
  else none

/-! ## Commands (commands.go)

Each command takes the store, the session, its argument vector, where a
command performs store-mutating calls also the failure oracle
`ok : Op → Bool` (`true` = the call succeeds), and for `rmbucket` the
pending confirmation input lines.  Printing is elided. -/

/-- `enter` (commands.go:39-56). -/
def enterCmd (s3 : S3) (sess : Session) (args : List Str) : Session × Option GoErr :=
  match checkArgs sess args ⟨[strOf "bucket name"], 1, false⟩ with
  | some e => (sess, some e)
  | none =>
    if bucketExists s3 (args.headD []) then (⟨args.headD [], []⟩, none)
    else (sess, some .bucketNotExist)

/-- `leave` (commands.go:58-66). -/
def leaveCmd (sess : Session) (args : List Str) : Session × Option GoErr :=
  match checkArgs sess args ⟨[], 0, true⟩ with
  | some e => (sess, some e)
  | none => (⟨[], []⟩, none)

/-- The `".."` branch of `cd` (commands.go:86-93): trim trailing
separators, split into segments, drop the last segment and rejoin. -/
def parentPrefix (p : Str) : Str :=
  let trimmed := trimRightSlash p
  let parts := splitOnSlash trimmed
  if parts.length > 1 then joinSlash parts.dropLast ++ ['/'] else []

/-- `cd` (commands.go:68-109). -/
def cdCmd (s3 : S3) (sess : Session) (args : List Str) : Session × Option GoErr :=
  match checkArgs sess args ⟨[strOf "dir name"], 1, false⟩ with
  | some e => (sess, some e)
  | none =>
    if args.length == 0 then (sess, some .noDirSpecified)
    else if args.length > 1 then (sess, some .tooManyArguments)
    else if sess.currentBucket.length == 0 then enterCmd s3 sess [args.headD []]
    else if args.headD [] == strOf ".." then
      ({ sess with currentPrefix := parentPrefix sess.currentPrefix }, none)
    else
      let st := stat s3 sess.currentBucket (sess.currentPrefix ++ args.headD [])
      if st.isFile then (sess, some .isAFile)
      else if !st.isDir then (sess, some .dirNotFound)
      else ({ sess with currentPrefix := sess.currentPrefix ++ args.headD [] ++ ['/'] }, none)

/-- `list` (commands.go:644-677); only prints, so no store or session
effect beyond the unknown-type error. -/
def listCmd (sess : Session) (args : List Str) : Option GoErr :=
  match checkArgs sess args ⟨[strOf "list type"], 1, false⟩ with
  | some e => some e
  | none =>
    if args.headD [] == strOf "buckets" || args.headD [] == strOf "bucket" then none
    else some .unknownListType

/-- `ls` (commands.go:111-133); printing elided.  At root it redirects
to `list ["bucket"]`. -/
def lsCmd (s3 : S3) (sess : Session) (args : List Str) : CmdResult :=
  match checkArgs sess args ⟨[strOf "dir name"], 0, false⟩ with
  | some e => ⟨s3, sess, [], some e⟩
  | none =>
    if sess.currentBucket.length == 0 then ⟨s3, sess, [], listCmd sess [strOf "bucket"]⟩
    else ⟨s3, sess, [], none⟩

/-- The removal loop shared by the recursive branch of `rm`
(commands.go:167-178) and `rmbucket` (commands.go:749-758): remove the
listed objects one at a time, aborting on the first failing call. -/
def rmLoop (ok : Op → Bool) (bucket : Str) :
    List Obj → S3 → List Op → S3 × List Op × Option GoErr
  | [], s3, tr => (s3, tr, none)
  | o :: rest, s3, tr =>
    let op := Op.removeObject bucket o.key
    if ok op then rmLoop ok bucket rest (applyOp s3 op) (tr ++ [op])
    else (s3, tr, some .storeError)

/-- `rm` (commands.go:135-185). -/
def rmCmd (ok : Op → Bool) (s3 : S3) (sess : Session) (args : List Str) : CmdResult :=
  match checkArgs sess args ⟨[strOf "object name", strOf "arg"], 1, true⟩ with
  | some e => ⟨s3, sess, [], some e⟩
  | none =>
    let pfx := sess.currentPrefix ++ args.headD []
    let st := stat s3 sess.currentBucket pfx
    if st.isFile then
      let op := Op.removeObject sess.currentBucket pfx
      if ok op then ⟨applyOp s3 op, sess, [op], none⟩
      else ⟨s3, sess, [], some .storeError⟩
    else if st.isDir then
      if args.length < 2 || !(args.getD 1 [] == strOf "-r") then
        ⟨s3, sess, [], some .rmDirNeedsFlag⟩
      else
        let pfx2 := addSlash pfx
        let z := rmLoop ok sess.currentBucket (listRecursive s3 sess.currentBucket pfx2) s3 []
        ⟨z.1, sess, z.2.1, z.2.2⟩
    else ⟨s3, sess, [], some .objectNotExist⟩

/-- `dl` (commands.go:187-264); downloads read the store and write
local files only, so the store, trace and session are untouched; local
I/O failures are elided. -/
def dlCmd (s3 : S3) (sess : Session) (args : List Str) : CmdResult :=
  match checkArgs sess args ⟨[strOf "source", strOf "destination"], 2, true⟩ with
  | some e => ⟨s3, sess, [], some e⟩
  | none =>
    let st := stat s3 sess.currentBucket (sess.currentPrefix ++ args.headD [])
    if st.isFile then ⟨s3, sess, [], none⟩
    else if st.isDir then ⟨s3, sess, [], none⟩
    else ⟨s3, sess, [], some .objectNotExist⟩

/-- Abstraction of the local file system consulted by `ul`: kind of a
path, its size, and the files found below a directory as pairs of a
path relative to the walked root and a size. -/
structure LocalFS where
  isFileAt : Str → Bool
  isDirAt : Str → Bool
  sizeAt : Str → Nat
  walkFiles : Str → List (Str × Nat)

/-- The `fs.Walk` upload loop of `ul` (commands.go:324-338). -/
def ulLoop (ok : Op → Bool) (bucket pfxKey : Str) :
    List (Str × Nat) → S3 → List Op → S3 × List Op × Option GoErr
  | [], s3, tr => (s3, tr, none)
  | (rel, sz) :: rest, s3, tr =>
    let op := Op.putObject bucket (pfxKey ++ rel) sz
    if ok op then ulLoop ok bucket pfxKey rest (applyOp s3 op) (tr ++ [op])
    else (s3, tr, some .storeError)

/-- `ul` (commands.go:283-345); note the Go code returns `nil` when the
source is neither a local file nor a local directory. -/
def ulCmd (lfs : LocalFS) (ok : Op → Bool) (s3 : S3) (sess : Session)
    (args : List Str) : CmdResult :=
  match checkArgs sess args ⟨[strOf "source", strOf "destination"], 2, true⟩ with
  | some e => ⟨s3, sess, [], some e⟩
  | none =>
    let localPath := args.headD []
    let objKey := sess.currentPrefix ++ args.getD 1 []
    if lfs.isFileAt localPath then
      let op := Op.putObject sess.currentBucket objKey (lfs.sizeAt localPath)
      if ok op then ⟨applyOp s3 op, sess, [op], none⟩
      else ⟨s3, sess, [], some .storeError⟩
    else if lfs.isDirAt localPath then
      let z := ulLoop ok sess.currentBucket (addSlash objKey) (lfs.walkFiles localPath) s3 []
      ⟨z.1, sess, z.2.1, z.2.2⟩
    else ⟨s3, sess, [], none⟩

/-- The per-object loop of the recursive branch of `mv`
(commands.go:415-434): copy to the destination key obtained by
replacing the source prefix with the destination prefix, then delete
the source, aborting on the first failing call. -/
def mvLoop (ok : Op → Bool) (bucket pSrc pDst : Str) :
    List Obj → S3 → List Op → S3 × List Op × Option GoErr
  | [], s3, tr => (s3, tr, none)
  | o :: rest, s3, tr =>
    let cop := Op.copyObject bucket o.key (pDst ++ o.key.drop pSrc.length)
    if ok cop then
      let s3' := applyOp s3 cop
      let rop := Op.removeObject bucket o.key
      if ok rop then mvLoop ok bucket pSrc pDst rest (applyOp s3' rop) (tr ++ [cop, rop])
      else (s3', tr ++ [cop], some .storeError)
    else (s3, tr, some .storeError)

/-- `mv` (commands.go:352-447). -/
def mvCmd (ok : Op → Bool) (s3 : S3) (sess : Session) (args : List Str) : CmdResult :=
  match checkArgs sess args ⟨[strOf "source", strOf "destination"], 2, true⟩ with
  | some e => ⟨s3, sess, [], some e⟩
  | none =>
    let st := stat s3 sess.currentBucket (sess.currentPrefix ++ args.headD [])
    if st.isFile then
      let srcKey := sess.currentPrefix ++ args.headD []
      let dstKey := sess.currentPrefix ++ args.getD 1 []
      let cop := Op.copyObject sess.currentBucket srcKey dstKey
      if ok cop then
        let s3' := applyOp s3 cop
        let rop := Op.removeObject sess.currentBucket srcKey
        if ok rop then ⟨applyOp s3' rop, sess, [cop, rop], none⟩
        else ⟨s3', sess, [cop], some .storeError⟩
      else ⟨s3, sess, [], some .storeError⟩
    else if st.isDir then
      let pSrc := addSlash (sess.currentPrefix ++ args.headD [])
      let pDst := addSlash (sess.currentPrefix ++ args.getD 1 [])
      let z := mvLoop ok sess.currentBucket pSrc pDst (listRecursive s3 sess.currentBucket pSrc) s3 []
      ⟨z.1, sess, z.2.1, z.2.2⟩
    else ⟨s3, sess, [], some .objectNotExist⟩

/-- The per-object loop of the recursive branch of `cp`
(commands.go:506-521): copy only. -/
def cpLoop (ok : Op → Bool) (bucket pSrc pDst : Str) :
    List Obj → S3 → List Op → S3 × List Op × Option GoErr
  | [], s3, tr => (s3, tr, none)
  | o :: rest, s3, tr =>
    let cop := Op.copyObject bucket o.key (pDst ++ o.key.drop pSrc.length)
    if ok cop then cpLoop ok bucket pSrc pDst rest (applyOp s3 cop) (tr ++ [cop])
    else (s3, tr, some .storeError)

/-- `cp` (commands.go:449-534). -/
def cpCmd (ok : Op → Bool) (s3 : S3) (sess : Session) (args : List Str) : CmdResult :=
  match checkArgs sess args ⟨[strOf "source", strOf "destination"], 2, true⟩ with
  | some e => ⟨s3, sess, [], some e⟩
  | none =>
    let st := stat s3 sess.currentBucket (sess.currentPrefix ++ args.headD [])
    if st.isFile then
      let cop := Op.copyObject sess.currentBucket (sess.currentPrefix ++ args.headD [])
        (sess.currentPrefix ++ args.getD 1 [])
      if ok cop then ⟨applyOp s3 cop, sess, [cop], none⟩
      else ⟨s3, sess, [], some .storeError⟩
    else if st.isDir then
      let pSrc := addSlash (sess.currentPrefix ++ args.headD [])
      let pDst := addSlash (sess.currentPrefix ++ args.getD 1 [])
      let z := cpLoop ok sess.currentBucket pSrc pDst (listRecursive s3 sess.currentBucket pSrc) s3 []
      ⟨z.1, sess, z.2.1, z.2.2⟩
    else ⟨s3, sess, [], some .objectNotExist⟩

/-- `touch` (commands.go:536-557). -/
def touchCmd (ok : Op → Bool) (s3 : S3) (sess : Session) (args : List Str) : CmdResult :=
  match checkArgs sess args ⟨[strOf "object name"], 1, true⟩ with
  | some e => ⟨s3, sess, [], some e⟩
  | none =>
    if existsKey s3 sess.currentBucket (sess.currentPrefix ++ args.headD []) then
      ⟨s3, sess, [], some .objectExists⟩
    else
      let op := Op.putObject sess.currentBucket (sess.currentPrefix ++ args.headD []) 0
      if ok op then ⟨applyOp s3 op, sess, [op], none⟩
      else ⟨s3, sess, [], some .storeError⟩

/-- `cat` (commands.go:559-591); content printing elided. -/
def catCmd (s3 : S3) (sess : Session) (args : List Str) : CmdResult :=
  match checkArgs sess args ⟨[strOf "object name"], 1, true⟩ with
  | some e => ⟨s3, sess, [], some e⟩
  | none =>
    let st := stat s3 sess.currentBucket (sess.currentPrefix ++ args.headD [])
    if st.isDir then ⟨s3, sess, [], some .isADirectory⟩
    else if !st.isFile then ⟨s3, sess, [], some .fileNotFound⟩
    else ⟨s3, sess, [], none⟩

/-- `find` (commands.go:593-642); pure filtering and printing. -/
def findCmd (s3 : S3) (sess : Session) (args : List Str) : CmdResult :=
  match checkArgs sess args ⟨[strOf "needle", strOf "pfx"], 1, true⟩ with
  | some e => ⟨s3, sess, [], some e⟩
  | none => ⟨s3, sess, [], none⟩

/-- `mkbucket` (commands.go:679-695): on success, a session at root
adopts the newly created bucket as current bucket. -/
def mkbucketCmd (ok : Op → Bool) (s3 : S3) (sess : Session) (args : List Str) : CmdResult :=
  match checkArgs sess args ⟨[strOf "bucket name"], 1, false⟩ with
  | some e => ⟨s3, sess, [], some e⟩
  | none =>
    let bucketName := args.headD []
    let op := Op.makeBucket bucketName
    if ok op then
      let sess' := if sess.currentBucket.length == 0 then
        { sess with currentBucket := bucketName } else sess
      ⟨applyOp s3 op, sess', [op], none⟩
    else ⟨s3, sess, [], some .storeError⟩

/-- `rmbucket` (commands.go:697-771): double confirmation, then delete
every object of the bucket and the bucket itself; leaving the deleted
bucket if it was the entered one. -/
def rmbucketCmd (ok : Op → Bool) (s3 : S3) (sess : Session) (args : List Str)
    (inputs : List Str) : CmdResult :=
  match checkArgs sess args ⟨[strOf "bucket name"], 1, false⟩ with
  | some e => ⟨s3, sess, [], some e⟩
  | none =>
    let bucketName := args.headD []
    if !bucketExists s3 bucketName then ⟨s3, sess, [], some .bucketNotExist⟩
    else
      match inputs with
      | [] => ⟨s3, sess, [], some .inputEOF⟩
      | str1 :: rest =>
        if !(str1 == bucketName) then ⟨s3, sess, [], none⟩
        else
          match rest with
          | [] => ⟨s3, sess, [], some .inputEOF⟩
          | str2 :: _ =>
            if !(str2 == strOf "DELETE") then ⟨s3, sess, [], none⟩
            else
              let z := rmLoop ok bucketName (listRecursive s3 bucketName []) s3 []
              match z.2.2 with
              | some e => ⟨z.1, sess, z.2.1, some e⟩
              | none =>
                let op := Op.removeBucket bucketName
                if ok op then
                  let sess' := if sess.currentBucket == bucketName then
                    (⟨[], []⟩ : Session) else sess
                  ⟨applyOp z.1 op, sess', z.2.1 ++ [op], none⟩
                else ⟨z.1, sess, z.2.1, some .storeError⟩

/-- `help` (commands.go:17-37): printing only. -/
def helpCmd (s3 : S3) (sess : Session) : CmdResult := ⟨s3, sess, [], none⟩

/-- The verbs dispatched by the command-line environment
(`consoleio.go`, `prepareCLE`). -/
inductive Verb where
  | help | enter | leave | cd | ls | rm | dl | ul | mv | cp
  | touch | cat | find | list | mkbucket | rmbucket
deriving DecidableEq, Repr

/-- Dispatch of one command line to its handler. -/
def execVerb (v : Verb) (lfs : LocalFS) (ok : Op → Bool) (s3 : S3) (sess : Session)
    (args : List Str) (inputs : List Str) : CmdResult :=
  match v with
  | .help => helpCmd s3 sess
  | .enter => ⟨s3, (enterCmd s3 sess args).1, [], (enterCmd s3 sess args).2⟩
  | .leave => ⟨s3, (leaveCmd sess args).1, [], (leaveCmd sess args).2⟩
  | .cd => ⟨s3, (cdCmd s3 sess args).1, [], (cdCmd s3 sess args).2⟩
  | .ls => lsCmd s3 sess args
  | .rm => rmCmd ok s3 sess args
  | .dl => dlCmd s3 sess args
  | .ul => ulCmd lfs ok s3 sess args
  | .mv => mvCmd ok s3 sess args
  | .cp => cpCmd ok s3 sess args
  | .touch => touchCmd ok s3 sess args
  | .cat => catCmd s3 sess args
  | .find => findCmd s3 sess args
  | .list => ⟨s3, sess, [], listCmd sess args⟩
  | .mkbucket => mkbucketCmd ok s3 sess args
  | .rmbucket => rmbucketCmd ok s3 sess args inputs

/-- The operation sequence the spec prescribes for a recursive move:
for each enumerated object, in order, a copy to the destination prefix
plus the key remainder after the source prefix, then a removal of the
source key. -/
def mvFullTrace (bucket pSrc pDst : Str) : List Obj → List Op
  | [] => []
  | o :: rest =>
    Op.copyObject bucket o.key (pDst ++ o.key.drop pSrc.length) ::
      Op.removeObject bucket o.key :: mvFullTrace bucket pSrc pDst rest

/-- The prefix invariant of the session: the current prefix is empty or
ends with the separator. -/
def prefixInv (p : Str) : Prop := p = [] ∨ hasSuffix p ['/'] = true

instance (p : Str) : Decidable (prefixInv p) := by
  unfold prefixInv; infer_instance

/-! ## C4: tokenizer -/

/-- C4: the tokenizer implements the three mutually exclusive modes with
an escape flag valid only outside single-quote mode, an unquoted space
closes a token only when the buffer is non-empty (consecutive spaces
produce no empty token), `tokenize('a "b c" d') = ["a", "b c", "d"]`,
`tokenize("a 'x\y' z") = ["a", "x\y", "z"]`, and a line ending inside a
quote or mid-escape makes the loop consume the next input line after
joining a newline character into the in-progress token. -/
theorem readCmd_tokenizer_spec :
    readCmd [strOf "a \"b c\" d"] = some [strOf "a", strOf "b c", strOf "d"] ∧
    readCmd [strOf "a 'x\\y' z"] = some [strOf "a", strOf "x\\y", strOf "z"] ∧
    readCmd [strOf "a  b"] = some [strOf "a", strOf "b"] ∧
    readCmd [strOf "a \"b", strOf "c\""] = some [strOf "a", strOf "b\nc"] ∧
    (∀ st r, modesInv st → modesInv (procChar st r)) ∧
    (∀ line rest st,
      ((procLine st line).escape = true ∨ (procLine st line).doubleQuote = true ∨
          (procLine st line).singleQuote = true) →
        readCmdLoop (line :: rest) st =
          readCmdLoop rest
            { procLine st line with sb := (procLine st line).sb ++ ['\n'] }) := by
  refine ⟨by decide, by decide, by decide, by decide, ?_, ?_⟩
  · intro st r h
    obtain ⟨h1, h2⟩ := h
    unfold modesInv procChar at *
    split_ifs <;> simp_all
  · intro line rest st h
    have hcond : ¬((procLine st line).escape = false ∧ (procLine st line).doubleQuote = false ∧
        (procLine st line).singleQuote = false) := by
      rcases h with h | h | h <;> simp [h]
    simp only [readCmdLoop, if_neg hcond]

/-- Witness for the quantified parts of `readCmd_tokenizer_spec` at
concrete inputs. -/
theorem readCmd_tokenizer_spec_witness :
    modesInv (procChar ⟨[], false, false, false, []⟩ '\'') ∧
    readCmdLoop [strOf "a \"b", strOf "c\""] ⟨[], false, false, false, []⟩ =
      readCmdLoop [strOf "c\""]
        { procLine ⟨[], false, false, false, []⟩ (strOf "a \"b") with
          sb := (procLine ⟨[], false, false, false, []⟩ (strOf "a \"b")).sb ++ ['\n'] } :=
  ⟨readCmd_tokenizer_spec.2.2.2.2.1 _ '\'' (by decide),
   readCmd_tokenizer_spec.2.2.2.2.2 _ _ _ (by decide)⟩

/-! ## Helper lemmas about `stat` -/

/-- `stat` unfolded. -/
theorem stat_eq (s3 : S3) (bucket key : Str) :
    stat s3 bucket key = statLoop (normalizeKey key ++ ['/']) (normalizeKey key)
      (listShallow (objsOf s3 bucket) (normalizeKey key)) := rfl

/-- The scanning loop of `stat` never reports both file and directory. -/
theorem statLoop_not_both (dk fk : Str) (L : List Obj) :
    ¬((statLoop dk fk L).isFile = true ∧ (statLoop dk fk L).isDir = true) := by
  induction L with
  | nil => simp [statLoop]
  | cons o rest ih =>
    unfold statLoop
    split_ifs <;> simp_all

/-- A key reported as directory is not reported as file. -/
theorem stat_isFile_false_of_isDir (s3 : S3) (bucket key : Str)
    (h : (stat s3 bucket key).isDir = true) : (stat s3 bucket key).isFile = false := by
  have hnb := statLoop_not_both (normalizeKey key ++ ['/']) (normalizeKey key)
    (listShallow (objsOf s3 bucket) (normalizeKey key))
  rw [stat_eq] at h ⊢
  cases hf : (statLoop (normalizeKey key ++ ['/']) (normalizeKey key)
      (listShallow (objsOf s3 bucket) (normalizeKey key))).isFile
  · rfl
  · exact absurd ⟨hf, h⟩ hnb

/-- A non-empty current bucket fails the `len(currentBucket) == 0` test. -/
theorem length_beq_zero_false {x : Str} (h : x ≠ []) : (x.length == 0) = false := by
  simp [List.length_eq_zero, h]

/-! ## C1: rmbucket confirmation gate -/

/-- C1: on an existing bucket, if the first confirmation input is not
the bucket name or the second is not `"DELETE"`, `rmbucket` performs no
store-mutating call (empty trace, store unchanged) and returns `nil`. -/
theorem rmbucket_confirmation_gate (ok : Op → Bool) (s3 : S3) (sess : Session)
    (name i1 i2 : Str) (rest : List Str)
    (hex : bucketExists s3 name = true)
    (hmis : i1 ≠ name ∨ i2 ≠ strOf "DELETE") :
    (rmbucketCmd ok s3 sess [name] (i1 :: i2 :: rest)).trace = [] ∧
    (rmbucketCmd ok s3 sess [name] (i1 :: i2 :: rest)).err = none ∧
    (rmbucketCmd ok s3 sess [name] (i1 :: i2 :: rest)).s3 = s3 := by
  rcases hmis with h | h
  · have hb : (i1 == name) = false := beq_eq_false_iff_ne.mpr h
    simp [rmbucketCmd, checkArgs, hex, hb]
  · have hb : (i2 == strOf "DELETE") = false := beq_eq_false_iff_ne.mpr h
    by_cases h1 : i1 = name
    · subst h1
      simp [rmbucketCmd, checkArgs, hex, hb]
    · have hb1 : (i1 == name) = false := beq_eq_false_iff_ne.mpr h1
      simp [rmbucketCmd, checkArgs, hex, hb1]

/-- Witness: `rmbucket x` with confirmations `"y"`, `"DELETE"` deletes
nothing. -/
theorem rmbucket_confirmation_gate_witness :
    (rmbucketCmd (fun _ => true) ⟨[⟨strOf "x", [⟨strOf "a", 1⟩]⟩]⟩ ⟨[], []⟩ [strOf "x"]
        [strOf "y", strOf "DELETE"]).trace = [] ∧
    (rmbucketCmd (fun _ => true) ⟨[⟨strOf "x", [⟨strOf "a", 1⟩]⟩]⟩ ⟨[], []⟩ [strOf "x"]
        [strOf "y", strOf "DELETE"]).err = none ∧
    (rmbucketCmd (fun _ => true) ⟨[⟨strOf "x", [⟨strOf "a", 1⟩]⟩]⟩ ⟨[], []⟩ [strOf "x"]
        [strOf "y", strOf "DELETE"]).s3 = ⟨[⟨strOf "x", [⟨strOf "a", 1⟩]⟩]⟩ :=
  rmbucket_confirmation_gate _ _ _ _ _ _ _ (by decide) (Or.inl (by decide))

/-! ## C2: rm on a directory requires -r -/

/-- C2: when `stat` classifies the target as a directory and the second
argument is absent or differs from `"-r"`, `rm` fails and performs no
removal: empty trace, store unchanged. -/
theorem rm_dir_without_flag (ok : Op → Bool) (s3 : S3) (sess : Session)
    (args : List Str) (name : Str)
    (hb : sess.currentBucket ≠ [])
    (hd : (stat s3 sess.currentBucket (sess.currentPrefix ++ name)).isDir = true)
    (hargs : args = [name] ∨ ∃ a2, args = [name, a2] ∧ a2 ≠ strOf "-r") :
    (rmCmd ok s3 sess args).err = some .rmDirNeedsFlag ∧
    (rmCmd ok s3 sess args).trace = [] ∧
    (rmCmd ok s3 sess args).s3 = s3 := by
  have hf := stat_isFile_false_of_isDir _ _ _ hd
  have hl := length_beq_zero_false hb
  rcases hargs with h | ⟨a2, h, hne⟩
  · subst h
    simp [rmCmd, checkArgs, hl, hf, hd]
  · subst h
    have hb2 : (a2 == strOf "-r") = false := beq_eq_false_iff_ne.mpr hne
    simp [rmCmd, checkArgs, hl, hf, hd, hb2]

/-- Witness: `rm d` on a store whose bucket `b` holds the directory
marker `d/` fails and deletes nothing. -/
theorem rm_dir_without_flag_witness :
    (rmCmd (fun _ => true) ⟨[⟨strOf "b", [⟨strOf "d/", 0⟩]⟩]⟩ ⟨strOf "b", []⟩
        [strOf "d"]).err = some .rmDirNeedsFlag ∧
    (rmCmd (fun _ => true) ⟨[⟨strOf "b", [⟨strOf "d/", 0⟩]⟩]⟩ ⟨strOf "b", []⟩
        [strOf "d"]).trace = [] ∧
    (rmCmd (fun _ => true) ⟨[⟨strOf "b", [⟨strOf "d/", 0⟩]⟩]⟩ ⟨strOf "b", []⟩
        [strOf "d"]).s3 = ⟨[⟨strOf "b", [⟨strOf "d/", 0⟩]⟩]⟩ :=
  rm_dir_without_flag _ _ _ _ (strOf "d") (by decide) (by decide) (Or.inl rfl)

/-! ## C10: touch refuses existing keys -/

/-- C10: `touch` on an existing key (file or directory) fails with an
already-exists error and performs no put; on a non-existing key it puts
a zero-byte object at the current prefix plus the name. -/
theorem touch_exists_guard (ok : Op → Bool) (s3 : S3) (sess : Session) (name : Str)
    (hb : sess.currentBucket ≠ []) :
    (existsKey s3 sess.currentBucket (sess.currentPrefix ++ name) = true →
      (touchCmd ok s3 sess [name]).err = some .objectExists ∧
      (touchCmd ok s3 sess [name]).trace = [] ∧
      (touchCmd ok s3 sess [name]).s3 = s3) ∧
    (existsKey s3 sess.currentBucket (sess.currentPrefix ++ name) = false →
      ok (Op.putObject sess.currentBucket (sess.currentPrefix ++ name) 0) = true →
      (touchCmd ok s3 sess [name]).err = none ∧
      (touchCmd ok s3 sess [name]).trace =
        [Op.putObject sess.currentBucket (sess.currentPrefix ++ name) 0] ∧
      (touchCmd ok s3 sess [name]).s3 =
        applyOp s3 (Op.putObject sess.currentBucket (sess.currentPrefix ++ name) 0)) := by
  have hl := length_beq_zero_false hb
  constructor
  · intro hex
    simp [touchCmd, checkArgs, hl, hex]
  · intro hex hok
    simp [touchCmd, checkArgs, hl, hex, hok]

/-- Witness: `touch a` fails on an existing object `a`; `touch c`
creates the zero-byte object `c`. -/
theorem touch_exists_guard_witness :
    ((touchCmd (fun _ => true) ⟨[⟨strOf "b", [⟨strOf "a", 1⟩]⟩]⟩ ⟨strOf "b", []⟩
        [strOf "a"]).err = some .objectExists ∧
      (touchCmd (fun _ => true) ⟨[⟨strOf "b", [⟨strOf "a", 1⟩]⟩]⟩ ⟨strOf "b", []⟩
        [strOf "a"]).trace = [] ∧
      (touchCmd (fun _ => true) ⟨[⟨strOf "b", [⟨strOf "a", 1⟩]⟩]⟩ ⟨strOf "b", []⟩
        [strOf "a"]).s3 = ⟨[⟨strOf "b", [⟨strOf "a", 1⟩]⟩]⟩) ∧
    ((touchCmd (fun _ => true) ⟨[⟨strOf "b", [⟨strOf "a", 1⟩]⟩]⟩ ⟨strOf "b", []⟩
        [strOf "c"]).err = none ∧
      (touchCmd (fun _ => true) ⟨[⟨strOf "b", [⟨strOf "a", 1⟩]⟩]⟩ ⟨strOf "b", []⟩
        [strOf "c"]).trace = [Op.putObject (strOf "b") (strOf "c") 0] ∧
      (touchCmd (fun _ => true) ⟨[⟨strOf "b", [⟨strOf "a", 1⟩]⟩]⟩ ⟨strOf "b", []⟩
        [strOf "c"]).s3 =
          applyOp ⟨[⟨strOf "b", [⟨strOf "a", 1⟩]⟩]⟩ (Op.putObject (strOf "b") (strOf "c") 0)) :=
  ⟨(touch_exists_guard _ _ _ _ (by decide)).1 (by decide),
   (touch_exists_guard _ _ _ _ (by decide)).2 (by decide) rfl⟩

/-! ## C5: stat classification -/

/-- If the scan reports a directory, the listing contains the marker. -/
theorem statLoop_isDir_mem (dk fk : Str) (L : List Obj)
    (h : (statLoop dk fk L).isDir = true) : ∃ o ∈ L, o.key = dk := by
  induction L with
  | nil => simp [statLoop] at h
  | cons o rest ih =>
    unfold statLoop at h
    split_ifs at h with h1 h2
    · exact ⟨o, List.mem_cons_self o rest, by simpa using h1⟩
    · obtain ⟨o', ho', hk⟩ := ih h
      exact ⟨o', List.mem_cons_of_mem _ ho', hk⟩

/-- If the scan reports a file, the listing contains the file entry and
the reported size is that entry's size. -/
theorem statLoop_isFile_eq (dk fk : Str) (L : List Obj)
    (h : (statLoop dk fk L).isFile = true) :
    ∃ o ∈ L, o.key = fk ∧ statLoop dk fk L = ⟨true, false, o.size⟩ := by
  induction L with
  | nil => simp [statLoop] at h
  | cons o rest ih =>
    by_cases h1 : (o.key == dk) = true
    · unfold statLoop at h
      rw [if_pos h1] at h
      simp at h
    · by_cases h2 : (o.key == fk) = true
      · refine ⟨o, List.mem_cons_self o rest, by simpa using h2, ?_⟩
        unfold statLoop
        rw [if_neg h1, if_pos h2]
      · unfold statLoop at h
        rw [if_neg h1, if_neg h2] at h
        obtain ⟨o', ho', hk, he⟩ := ih h
        refine ⟨o', List.mem_cons_of_mem _ ho', hk, ?_⟩
        unfold statLoop
        rw [if_neg h1, if_neg h2, he]

/-- If the listing contains the directory marker and no file entry, the
scan reports a directory. -/
theorem statLoop_isDir_of_mem (dk fk : Str) (L : List Obj)
    (hmem : ∃ o ∈ L, o.key = dk) (hno : ¬∃ o ∈ L, o.key = fk) :
    (statLoop dk fk L).isDir = true := by
  induction L with
  | nil => simp at hmem
  | cons o rest ih =>
    unfold statLoop
    split_ifs with h1 h2
    · rfl
    · exact absurd ⟨o, List.mem_cons_self o rest, by simpa using h2⟩ hno
    · obtain ⟨o', ho', hk⟩ := hmem
      rcases List.mem_cons.mp ho' with h | h
      · subst h; exact absurd (by simpa using hk) (by simpa using h1)
      · exact ih ⟨o', h, hk⟩ (fun ⟨o'', ho'', hk''⟩ =>
          hno ⟨o'', List.mem_cons_of_mem _ ho'', hk''⟩)

/-- If the listing contains the file entry and no directory marker, the
scan reports a file. -/
theorem statLoop_isFile_of_mem (dk fk : Str) (L : List Obj)
    (hmem : ∃ o ∈ L, o.key = fk) (hno : ¬∃ o ∈ L, o.key = dk) :
    (statLoop dk fk L).isFile = true := by
  induction L with
  | nil => simp at hmem
  | cons o rest ih =>
    unfold statLoop
    split_ifs with h1 h2
    · exact absurd ⟨o, List.mem_cons_self o rest, by simpa using h1⟩ hno
    · rfl
    · obtain ⟨o', ho', hk⟩ := hmem
      rcases List.mem_cons.mp ho' with h | h
      · subst h; exact absurd (by simpa using hk) (by simpa using h2)
      · exact ih ⟨o', h, hk⟩ (fun ⟨o'', ho'', hk''⟩ =>
          hno ⟨o'', List.mem_cons_of_mem _ ho'', hk''⟩)

/-- C5: `stat` strips one trailing separator and scans the shallow
listing filtered by the normalized key: assuming the store holds no
clashing file/marker pair for that key, it reports a directory exactly
when the listing contains the normalized key plus `"/"`, a file (with
that entry's size) exactly when it contains the normalized key itself;
it never reports both, and reports neither when no such entry exists. -/
theorem stat_classification (s3 : S3) (bucket key : Str)
    (hnc : ¬((∃ o ∈ listShallow (objsOf s3 bucket) (normalizeKey key),
                o.key = normalizeKey key ++ ['/']) ∧
             (∃ o ∈ listShallow (objsOf s3 bucket) (normalizeKey key),
                o.key = normalizeKey key))) :
    (¬((stat s3 bucket key).isFile = true ∧ (stat s3 bucket key).isDir = true)) ∧
    ((stat s3 bucket key).isDir = true ↔
      ∃ o ∈ listShallow (objsOf s3 bucket) (normalizeKey key),
        o.key = normalizeKey key ++ ['/']) ∧
    ((stat s3 bucket key).isFile = true ↔
      ∃ o ∈ listShallow (objsOf s3 bucket) (normalizeKey key),
        o.key = normalizeKey key) ∧
    ((stat s3 bucket key).isFile = true →
      ∃ o ∈ listShallow (objsOf s3 bucket) (normalizeKey key),
        o.key = normalizeKey key ∧ (stat s3 bucket key).size = o.size) := by
  rw [stat_eq]
  refine ⟨statLoop_not_both _ _ _, ⟨statLoop_isDir_mem _ _ _, ?_⟩,
    ⟨fun h => ?_, ?_⟩, fun h => ?_⟩
  · intro hmem
    exact statLoop_isDir_of_mem _ _ _ hmem (fun hf => hnc ⟨hmem, hf⟩)
  · obtain ⟨o, ho, hk, _⟩ := statLoop_isFile_eq _ _ _ h
    exact ⟨o, ho, hk⟩
  · intro hmem
    exact statLoop_isFile_of_mem _ _ _ hmem (fun hd => hnc ⟨hd, hmem⟩)
  · obtain ⟨o, ho, hk, he⟩ := statLoop_isFile_eq _ _ _ h
    exact ⟨o, ho, hk, by rw [he]⟩

/-- Witness: on a store holding file `a/b` (size 4) and marker `a/c/`,
`stat` reports `a/b` as a file of size 4, `a/c` as a directory, and
`a/missing` as neither. -/
theorem stat_classification_witness :
    (stat ⟨[⟨strOf "b", [⟨strOf "a/b", 4⟩, ⟨strOf "a/c/", 0⟩]⟩]⟩ (strOf "b")
      (strOf "a/b")).isFile = true ∧
    (stat ⟨[⟨strOf "b", [⟨strOf "a/b", 4⟩, ⟨strOf "a/c/", 0⟩]⟩]⟩ (strOf "b")
      (strOf "a/c")).isDir = true ∧
    ¬(stat ⟨[⟨strOf "b", [⟨strOf "a/b", 4⟩, ⟨strOf "a/c/", 0⟩]⟩]⟩ (strOf "b")
      (strOf "a/missing")).isDir = true :=
  ⟨(stat_classification _ _ _ (by decide)).2.2.1.mpr (by decide),
   (stat_classification _ _ _ (by decide)).2.1.mpr (by decide),
   fun h => absurd ((stat_classification _ _ (strOf "a/missing") (by decide)).2.1.mp h)
     (by decide)⟩

/-! ## C6: cd into a named directory -/

/-- C6: with a bucket entered and a name other than `".."`, `cd`
appends the name plus a separator to the prefix exactly when `stat`
reports a directory; it fails with an is-a-file error on a file and a
not-found error otherwise, leaving the session unchanged in both
failure cases. -/
theorem cd_named_dir (s3 : S3) (sess : Session) (name : Str)
    (hb : sess.currentBucket ≠ [])
    (hname : name ≠ strOf "..") :
    ((stat s3 sess.currentBucket (sess.currentPrefix ++ name)).isFile = true →
      cdCmd s3 sess [name] = (sess, some .isAFile)) ∧
    ((stat s3 sess.currentBucket (sess.currentPrefix ++ name)).isFile = false ∧
        (stat s3 sess.currentBucket (sess.currentPrefix ++ name)).isDir = false →
      cdCmd s3 sess [name] = (sess, some .dirNotFound)) ∧
    ((stat s3 sess.currentBucket (sess.currentPrefix ++ name)).isDir = true →
      cdCmd s3 sess [name] =
        ({ sess with currentPrefix := sess.currentPrefix ++ name ++ ['/'] }, none)) := by
  have hl := length_beq_zero_false hb
  have hne : (name == strOf "..") = false := beq_eq_false_iff_ne.mpr hname
  refine ⟨fun hf => ?_, fun ⟨hf, hd⟩ => ?_, fun hd => ?_⟩
  · simp [cdCmd, checkArgs, hl, hne, hf]
  · simp [cdCmd, checkArgs, hl, hne, hf, hd]
  · have hf := stat_isFile_false_of_isDir _ _ _ hd
    simp [cdCmd, checkArgs, hl, hne, hf, hd]

/-- Witness: with marker `d/` and file `f` in bucket `b`, `cd d`
appends `d/`, `cd f` fails as a file, `cd m` fails as not found. -/
theorem cd_named_dir_witness :
    cdCmd ⟨[⟨strOf "b", [⟨strOf "d/", 0⟩, ⟨strOf "f", 1⟩]⟩]⟩ ⟨strOf "b", []⟩ [strOf "d"] =
      (⟨strOf "b", strOf "d/"⟩, none) ∧
    cdCmd ⟨[⟨strOf "b", [⟨strOf "d/", 0⟩, ⟨strOf "f", 1⟩]⟩]⟩ ⟨strOf "b", []⟩ [strOf "f"] =
      (⟨strOf "b", []⟩, some .isAFile) ∧
    cdCmd ⟨[⟨strOf "b", [⟨strOf "d/", 0⟩, ⟨strOf "f", 1⟩]⟩]⟩ ⟨strOf "b", []⟩ [strOf "m"] =
      (⟨strOf "b", []⟩, some .dirNotFound) :=
  ⟨(cd_named_dir _ _ (strOf "d") (by decide) (by decide)).2.2 (by decide),
   (cd_named_dir _ _ (strOf "f") (by decide) (by decide)).1 (by decide),
   (cd_named_dir _ _ (strOf "m") (by decide) (by decide)).2.1 (by decide)⟩

/-! ## C7: cd ".." pops exactly one segment -/

/-- `splitOnSlash` unfolded on a cons cell. -/
theorem splitOnSlash_cons (c : Char) (rest : Str) :
    splitOnSlash (c :: rest) =
      match splitOnSlash rest with
      | [] => [[]]
      | t :: ts => if c = '/' then [] :: t :: ts else (c :: t) :: ts := rfl

/-- `strings.Split` never returns an empty list. -/
theorem splitOnSlash_ne_nil (s : Str) : splitOnSlash s ≠ [] := by
  cases s with
  | nil => simp [splitOnSlash]
  | cons c rest =>
    rw [splitOnSlash_cons]
    cases h : splitOnSlash rest with
    | nil => simp
    | cons t ts => split_ifs <;> simp

/-- Splitting a separator-free string yields the single segment. -/
theorem splitOnSlash_no_slash (s : Str) (h : '/' ∉ s) : splitOnSlash s = [s] := by
  induction s with
  | nil => rfl
  | cons c rest ih =>
    have hc : c ≠ '/' := fun hh => h (hh ▸ List.mem_cons_self c rest)
    have hr : '/' ∉ rest := fun hh => h (List.mem_cons_of_mem _ hh)
    rw [splitOnSlash_cons, ih hr]
    simp [hc]

/-- `splitOnSlash` on a cons cell with known tail split. -/
theorem splitOnSlash_cons_eq (c : Char) (rest : Str) (t : Str) (ts : List Str)
    (h : splitOnSlash rest = t :: ts) :
    splitOnSlash (c :: rest) = if c = '/' then [] :: t :: ts else (c :: t) :: ts := by
  rw [splitOnSlash_cons, h]

/-- A string containing a separator splits into at least two segments. -/
theorem splitOnSlash_slash_len (q0 s : Str) :
    2 ≤ (splitOnSlash (q0 ++ '/' :: s)).length := by
  induction q0 with
  | nil =>
    rw [List.nil_append, splitOnSlash_cons]
    cases h : splitOnSlash s with
    | nil => exact absurd h (splitOnSlash_ne_nil s)
    | cons t ts => simp
  | cons c q0' ih =>
    cases h : splitOnSlash (q0' ++ '/' :: s) with
    | nil => exact absurd h (splitOnSlash_ne_nil _)
    | cons t ts =>
      rw [h] at ih
      rw [List.cons_append, splitOnSlash_cons_eq c _ t ts h]
      split_ifs <;> simp_all

/-- `strings.Join` on a list starting with a non-empty head segment. -/
theorem joinSlash_cons_cons (c : Char) (t : Str) (l : List Str) :
    joinSlash ((c :: t) :: l) = c :: joinSlash (t :: l) := by
  cases l <;> rfl

/-- `strings.Join` on a list starting with an empty segment. -/
theorem joinSlash_nil_cons (l : List Str) (hl : l ≠ []) :
    joinSlash ([] :: l) = '/' :: joinSlash l := by
  cases l with
  | nil => exact absurd rfl hl
  | cons y ys => rfl

/-- Joining all but the last segment of `q0 ++ "/" ++ s` (with `s`
separator-free) and re-appending the separator restores `q0 ++ "/"`. -/
theorem joinSlash_dropLast_split (q0 s : Str) (h : '/' ∉ s) :
    joinSlash (splitOnSlash (q0 ++ '/' :: s)).dropLast ++ ['/'] = q0 ++ ['/'] := by
  induction q0 with
  | nil =>
    rw [List.nil_append, splitOnSlash_cons, splitOnSlash_no_slash s h]
    simp [joinSlash]
  | cons c q0' ih =>
    cases hsp : splitOnSlash (q0' ++ '/' :: s) with
    | nil => exact absurd hsp (splitOnSlash_ne_nil _)
    | cons t ts =>
      rw [hsp] at ih
      have hlen : 2 ≤ (t :: ts).length := by
        rw [← hsp]; exact splitOnSlash_slash_len q0' s
      obtain ⟨u, us, rfl⟩ : ∃ u us, ts = u :: us := by
        cases ts with
        | nil => simp at hlen
        | cons u us => exact ⟨u, us, rfl⟩
      rw [List.cons_append, splitOnSlash_cons_eq c _ t (u :: us) hsp]
      by_cases hc : c = '/'
      · subst hc
        rw [if_pos rfl]
        have hdl : (t :: u :: us).dropLast ≠ [] := by simp
        rw [List.dropLast_cons₂, joinSlash_nil_cons _ hdl, List.cons_append]
        rw [ih, List.cons_append]
      · rw [if_neg hc]
        rw [List.dropLast_cons₂] at ih
        rw [List.dropLast_cons₂, joinSlash_cons_cons, List.cons_append, ih,
          List.cons_append]

/-- `strings.TrimRight` removes exactly the final separator of
`p ++ s ++ "/"` when `s` is non-empty and separator-free. -/
theorem trimRightSlash_append (p s : Str) (hs : s ≠ []) (hns : '/' ∉ s) :
    trimRightSlash (p ++ s ++ ['/']) = p ++ s := by
  obtain ⟨d, t, hrev⟩ : ∃ d t, s.reverse = d :: t := by
    cases hr : s.reverse with
    | nil => exact absurd (List.reverse_eq_nil_iff.mp hr) hs
    | cons d t => exact ⟨d, t, rfl⟩
  have hd : d ∈ s := by
    rw [← List.mem_reverse, hrev]; exact List.mem_cons_self d t
  have hdne : (d == '/') = false := beq_eq_false_iff_ne.mpr (fun hh => hns (hh ▸ hd))
  have h1 : (p ++ s ++ ['/']).reverse = '/' :: (s.reverse ++ p.reverse) := by
    simp
  have h2 : s.reverse ++ p.reverse = d :: (t ++ p.reverse) := by rw [hrev]; rfl
  unfold trimRightSlash
  rw [h1, List.dropWhile_cons]
  simp only [beq_self_eq_true, if_true]
  rw [h2, List.dropWhile_cons]
  simp only [hdne, Bool.false_eq_true, if_false]
  rw [← h2]
  simp

/-- `parentPrefix` with its local bindings unfolded. -/
theorem parentPrefix_eq (p : Str) :
    parentPrefix p =
      if (splitOnSlash (trimRightSlash p)).length > 1 then
        joinSlash (splitOnSlash (trimRightSlash p)).dropLast ++ ['/']
      else [] := rfl

/-- The `".."` branch of `cd` pops exactly the last path segment: for a
prefix of the form `p ++ s ++ "/"` with `p` empty or `"/"`-terminated
and `s` a non-empty separator-free segment, the result is `p`. -/
theorem parentPrefix_pop (p s : Str)
    (hp : p = [] ∨ ∃ q0, p = q0 ++ ['/']) (hs : s ≠ []) (hns : '/' ∉ s) :
    parentPrefix (p ++ s ++ ['/']) = p := by
  rw [parentPrefix_eq]
  rw [trimRightSlash_append p s hs hns]
  rcases hp with rfl | ⟨q0, rfl⟩
  · rw [List.nil_append, splitOnSlash_no_slash s hns]
    simp
  · have hshape : q0 ++ ['/'] ++ s = q0 ++ '/' :: s := by simp
    rw [hshape]
    have hlen := splitOnSlash_slash_len q0 s
    rw [if_pos (by omega)]
    exact joinSlash_dropLast_split q0 s hns

/-- C7: with a bucket entered, `cd ".."` replaces the prefix by its
parent; on `"a/b/"` this yields `"a/"`, on `"a/"` it yields `""`, on
`""` it stays `""`, and in general it removes exactly the last path
segment. -/
theorem cd_dotdot_pops_segment (s3 : S3) (sess : Session)
    (hb : sess.currentBucket ≠ []) :
    cdCmd s3 sess [strOf ".."] =
      ({ sess with currentPrefix := parentPrefix sess.currentPrefix }, none) ∧
    parentPrefix (strOf "a/b/") = strOf "a/" ∧
    parentPrefix (strOf "a/") = [] ∧
    parentPrefix [] = [] ∧
    (∀ p s, (p = [] ∨ ∃ q0, p = q0 ++ ['/']) → s ≠ [] → '/' ∉ s →
      parentPrefix (p ++ s ++ ['/']) = p) := by
  have hl := length_beq_zero_false hb
  exact ⟨by simp [cdCmd, checkArgs, hl], by decide, by decide, by decide, parentPrefix_pop⟩

/-! ## C3: recursive mv -/

/-- `mvLoop` unfolded on a cons cell. -/
theorem mvLoop_cons (ok : Op → Bool) (bucket pSrc pDst : Str) (o : Obj)
    (rest : List Obj) (s3 : S3) (tr : List Op) :
    mvLoop ok bucket pSrc pDst (o :: rest) s3 tr =
      if ok (Op.copyObject bucket o.key (pDst ++ o.key.drop pSrc.length)) = true then
        if ok (Op.removeObject bucket o.key) = true then
          mvLoop ok bucket pSrc pDst rest
            (applyOp (applyOp s3 (Op.copyObject bucket o.key (pDst ++ o.key.drop pSrc.length)))
              (Op.removeObject bucket o.key))
            (tr ++ [Op.copyObject bucket o.key (pDst ++ o.key.drop pSrc.length),
              Op.removeObject bucket o.key])
        else (applyOp s3 (Op.copyObject bucket o.key (pDst ++ o.key.drop pSrc.length)),
          tr ++ [Op.copyObject bucket o.key (pDst ++ o.key.drop pSrc.length)],
          some .storeError)
      else (s3, tr, some .storeError) := rfl

/-- The executed part of a recursive move is always a prefix of the
prescribed sequence, is the whole sequence exactly when no error is
returned, and the resulting store is the input store with exactly the
executed operations applied. -/
theorem mvLoop_spec (ok : Op → Bool) (bucket pSrc pDst : Str) :
    ∀ (objs : List Obj) (s3 : S3) (tr : List Op),
      ∃ t0, (mvLoop ok bucket pSrc pDst objs s3 tr).2.1 = tr ++ t0 ∧
        t0 <+: mvFullTrace bucket pSrc pDst objs ∧
        ((mvLoop ok bucket pSrc pDst objs s3 tr).2.2 = none →
          t0 = mvFullTrace bucket pSrc pDst objs) ∧
        (mvLoop ok bucket pSrc pDst objs s3 tr).1 = applyOps s3 t0 := by
  intro objs
  induction objs with
  | nil =>
    intro s3 tr
    exact ⟨[], by simp [mvLoop], by simp [mvFullTrace], fun _ => rfl, rfl⟩
  | cons o rest ih =>
    intro s3 tr
    rw [mvLoop_cons]
    by_cases hc : ok (Op.copyObject bucket o.key (pDst ++ o.key.drop pSrc.length)) = true
    · rw [if_pos hc]
      by_cases hr : ok (Op.removeObject bucket o.key) = true
      · rw [if_pos hr]
        obtain ⟨t0, htr, ⟨t, ht⟩, herr, hs⟩ :=
          ih (applyOp (applyOp s3 (Op.copyObject bucket o.key (pDst ++ o.key.drop pSrc.length)))
              (Op.removeObject bucket o.key))
            (tr ++ [Op.copyObject bucket o.key (pDst ++ o.key.drop pSrc.length),
              Op.removeObject bucket o.key])
        refine ⟨Op.copyObject bucket o.key (pDst ++ o.key.drop pSrc.length) ::
          Op.removeObject bucket o.key :: t0, ?_, ⟨t, ?_⟩, ?_, ?_⟩
        · rw [htr]; simp
        · simp only [mvFullTrace, List.cons_append, ← ht]
        · intro h
          rw [herr h, mvFullTrace]
        · rw [hs]; rfl
      · rw [if_neg hr]
        refine ⟨[Op.copyObject bucket o.key (pDst ++ o.key.drop pSrc.length)], rfl,
          ⟨Op.removeObject bucket o.key :: mvFullTrace bucket pSrc pDst rest, rfl⟩,
          fun h => by simp at h, rfl⟩
    · rw [if_neg hc]
      exact ⟨[], by simp, ⟨mvFullTrace bucket pSrc pDst (o :: rest), rfl⟩,
        fun h => by simp at h, rfl⟩

/-- In any prefix of the prescribed move sequence, a removal of a key is
always accompanied by the earlier copy of that same key to its
replacement destination. -/
theorem mvFullTrace_prefix_remove (bucket pSrc pDst : Str) :
    ∀ (objs : List Obj) (t0 : List Op) (k : Str),
      t0 <+: mvFullTrace bucket pSrc pDst objs →
      Op.removeObject bucket k ∈ t0 →
      Op.copyObject bucket k (pDst ++ k.drop pSrc.length) ∈ t0 := by
  intro objs
  induction objs with
  | nil =>
    intro t0 k hpre hmem
    rw [mvFullTrace] at hpre
    obtain rfl := List.prefix_nil.mp hpre
    simp at hmem
  | cons o rest ih =>
    intro t0 k hpre hmem
    rw [mvFullTrace] at hpre
    obtain ⟨t, ht⟩ := hpre
    rcases t0 with _ | ⟨a, t0'⟩
    · simp at hmem
    · rw [List.cons_append] at ht
      injection ht with ha ht2
      subst ha
      rcases t0' with _ | ⟨b, t0''⟩
      · simp at hmem
      · rw [List.cons_append] at ht2
        injection ht2 with hb ht3
        subst hb
        rcases List.mem_cons.mp hmem with h | hmem2
        · simp at h
        · rcases List.mem_cons.mp hmem2 with h | hmem3
          · injection h with h1 h2
            subst h2
            exact List.mem_cons_self _ _
          · exact List.mem_cons_of_mem _ (List.mem_cons_of_mem _
              (ih t0'' k ⟨t, ht3⟩ hmem3))

/-- C3: for a recursive `mv` (source statted as a directory), every
performed operation comes from the prescribed sequence "copy object to
destination-prefix plus key-remainder, then remove the source object",
executed in order: the performed trace is a prefix of that sequence, it
is the whole sequence exactly when `mv` returns without error, the
resulting store is the input store with exactly the performed operations
applied (aborted batches are not rolled back), and a source object is
removed only if its own copy was performed. -/
theorem mv_recursive_spec (ok : Op → Bool) (s3 : S3) (sess : Session) (src dst : Str)
    (hb : sess.currentBucket ≠ [])
    (hd : (stat s3 sess.currentBucket (sess.currentPrefix ++ src)).isDir = true) :
    (mvCmd ok s3 sess [src, dst]).trace <+:
      mvFullTrace sess.currentBucket (addSlash (sess.currentPrefix ++ src))
        (addSlash (sess.currentPrefix ++ dst))
        (listRecursive s3 sess.currentBucket (addSlash (sess.currentPrefix ++ src))) ∧
    ((mvCmd ok s3 sess [src, dst]).err = none →
      (mvCmd ok s3 sess [src, dst]).trace =
        mvFullTrace sess.currentBucket (addSlash (sess.currentPrefix ++ src))
          (addSlash (sess.currentPrefix ++ dst))
          (listRecursive s3 sess.currentBucket (addSlash (sess.currentPrefix ++ src)))) ∧
    (mvCmd ok s3 sess [src, dst]).s3 = applyOps s3 (mvCmd ok s3 sess [src, dst]).trace ∧
    (∀ k, Op.removeObject sess.currentBucket k ∈ (mvCmd ok s3 sess [src, dst]).trace →
      Op.copyObject sess.currentBucket k
          (addSlash (sess.currentPrefix ++ dst) ++
            k.drop (addSlash (sess.currentPrefix ++ src)).length) ∈
        (mvCmd ok s3 sess [src, dst]).trace) := by
  have hf := stat_isFile_false_of_isDir _ _ _ hd
  have hl := length_beq_zero_false hb
  have hcmd : mvCmd ok s3 sess [src, dst] =
      ⟨(mvLoop ok sess.currentBucket (addSlash (sess.currentPrefix ++ src))
          (addSlash (sess.currentPrefix ++ dst))
          (listRecursive s3 sess.currentBucket (addSlash (sess.currentPrefix ++ src))) s3 []).1,
        sess,
        (mvLoop ok sess.currentBucket (addSlash (sess.currentPrefix ++ src))
          (addSlash (sess.currentPrefix ++ dst))
          (listRecursive s3 sess.currentBucket (addSlash (sess.currentPrefix ++ src))) s3 []).2.1,
        (mvLoop ok sess.currentBucket (addSlash (sess.currentPrefix ++ src))
          (addSlash (sess.currentPrefix ++ dst))
          (listRecursive s3 sess.currentBucket (addSlash (sess.currentPrefix ++ src))) s3 []).2.2⟩ := by
    simp [mvCmd, checkArgs, hl, hf, hd]
  obtain ⟨t0, htr, hpre, herr, hs⟩ := mvLoop_spec ok sess.currentBucket
    (addSlash (sess.currentPrefix ++ src)) (addSlash (sess.currentPrefix ++ dst))
    (listRecursive s3 sess.currentBucket (addSlash (sess.currentPrefix ++ src))) s3 []
  rw [List.nil_append] at htr
  rw [hcmd]
  refine ⟨?_, ?_, ?_, ?_⟩
  · show (mvLoop _ _ _ _ _ _ _).2.1 <+: _
    rw [htr]; exact hpre
  · intro h
    show (mvLoop _ _ _ _ _ _ _).2.1 = _
    rw [htr, herr h]
  · show (mvLoop _ _ _ _ _ _ _).1 = applyOps s3 (mvLoop _ _ _ _ _ _ _).2.1
    rw [htr, hs]
  · intro k hmem
    show Op.copyObject _ _ _ ∈ (mvLoop _ _ _ _ _ _ _).2.1
    rw [htr]
    rw [show (⟨(mvLoop ok sess.currentBucket (addSlash (sess.currentPrefix ++ src))
          (addSlash (sess.currentPrefix ++ dst))
          (listRecursive s3 sess.currentBucket (addSlash (sess.currentPrefix ++ src))) s3 []).1,
        sess, (mvLoop ok sess.currentBucket (addSlash (sess.currentPrefix ++ src))
          (addSlash (sess.currentPrefix ++ dst))
          (listRecursive s3 sess.currentBucket (addSlash (sess.currentPrefix ++ src))) s3 []).2.1,
        (mvLoop ok sess.currentBucket (addSlash (sess.currentPrefix ++ src))
          (addSlash (sess.currentPrefix ++ dst))
          (listRecursive s3 sess.currentBucket (addSlash (sess.currentPrefix ++ src))) s3 []).2.2⟩ :
        CmdResult).trace = (mvLoop ok sess.currentBucket (addSlash (sess.currentPrefix ++ src))
          (addSlash (sess.currentPrefix ++ dst))
          (listRecursive s3 sess.currentBucket (addSlash (sess.currentPrefix ++ src))) s3 []).2.1
      from rfl, htr] at hmem
    exact mvFullTrace_prefix_remove _ _ _ _ t0 k hpre hmem

/-- Witness: moving prefix `p` to `q` in a store with objects `p/1`,
`p/2` performs exactly copy-then-remove per object, and every removed
key was copied first. -/
theorem mv_recursive_spec_witness :
    (mvCmd (fun _ => true) ⟨[⟨strOf "b", [⟨strOf "p/1", 1⟩, ⟨strOf "p/2", 2⟩]⟩]⟩
        ⟨strOf "b", []⟩ [strOf "p", strOf "q"]).trace <+:
      mvFullTrace (strOf "b") (addSlash ([] ++ strOf "p")) (addSlash ([] ++ strOf "q"))
        (listRecursive ⟨[⟨strOf "b", [⟨strOf "p/1", 1⟩, ⟨strOf "p/2", 2⟩]⟩]⟩ (strOf "b")
          (addSlash ([] ++ strOf "p"))) ∧
    (mvCmd (fun _ => true) ⟨[⟨strOf "b", [⟨strOf "p/1", 1⟩, ⟨strOf "p/2", 2⟩]⟩]⟩
        ⟨strOf "b", []⟩ [strOf "p", strOf "q"]).s3 =
      applyOps ⟨[⟨strOf "b", [⟨strOf "p/1", 1⟩, ⟨strOf "p/2", 2⟩]⟩]⟩
        (mvCmd (fun _ => true) ⟨[⟨strOf "b", [⟨strOf "p/1", 1⟩, ⟨strOf "p/2", 2⟩]⟩]⟩
          ⟨strOf "b", []⟩ [strOf "p", strOf "q"]).trace :=
  ⟨(mv_recursive_spec _ _ _ _ _ (by decide) (by decide)).1,
   (mv_recursive_spec _ _ _ _ _ (by decide) (by decide)).2.2.1⟩

/-! ## Session frame lemmas -/

/-- `ls` never touches the session. -/
theorem lsCmd_sess (s3 : S3) (sess : Session) (args : List Str) :
    (lsCmd s3 sess args).sess = sess := by
  unfold lsCmd
  split <;> first | rfl | (split_ifs <;> rfl)

/-- `rm` never touches the session. -/
theorem rmCmd_sess (ok : Op → Bool) (s3 : S3) (sess : Session) (args : List Str) :
    (rmCmd ok s3 sess args).sess = sess := by
  unfold rmCmd
  split <;> first | rfl | (dsimp only; split_ifs <;> rfl)

/-- `dl` never touches the session. -/
theorem dlCmd_sess (s3 : S3) (sess : Session) (args : List Str) :
    (dlCmd s3 sess args).sess = sess := by
  unfold dlCmd
  split <;> first | rfl | (dsimp only; split_ifs <;> rfl)

/-- `ul` never touches the session. -/
theorem ulCmd_sess (lfs : LocalFS) (ok : Op → Bool) (s3 : S3) (sess : Session)
    (args : List Str) : (ulCmd lfs ok s3 sess args).sess = sess := by
  unfold ulCmd
  split <;> first | rfl | (dsimp only; split_ifs <;> rfl)

/-- `mv` never touches the session. -/
theorem mvCmd_sess (ok : Op → Bool) (s3 : S3) (sess : Session) (args : List Str) :
    (mvCmd ok s3 sess args).sess = sess := by
  unfold mvCmd
  split <;> first | rfl | (dsimp only; split_ifs <;> rfl)

/-- `cp` never touches the session. -/
theorem cpCmd_sess (ok : Op → Bool) (s3 : S3) (sess : Session) (args : List Str) :
    (cpCmd ok s3 sess args).sess = sess := by
  unfold cpCmd
  split <;> first | rfl | (dsimp only; split_ifs <;> rfl)

/-- `touch` never touches the session. -/
theorem touchCmd_sess (ok : Op → Bool) (s3 : S3) (sess : Session) (args : List Str) :
    (touchCmd ok s3 sess args).sess = sess := by
  unfold touchCmd
  split <;> first | rfl | (dsimp only; split_ifs <;> rfl)

/-- `cat` never touches the session. -/
theorem catCmd_sess (s3 : S3) (sess : Session) (args : List Str) :
    (catCmd s3 sess args).sess = sess := by
  unfold catCmd
  split <;> first | rfl | (dsimp only; split_ifs <;> rfl)

/-- `find` never touches the session. -/
theorem findCmd_sess (s3 : S3) (sess : Session) (args : List Str) :
    (findCmd s3 sess args).sess = sess := by
  unfold findCmd
  split <;> rfl

/-- `mkbucket` leaves the prefix unchanged and keeps the whole session
when a bucket is already entered; at root, a successful creation enters
the new bucket. -/
theorem mkbucketCmd_sess (ok : Op → Bool) (s3 : S3) (sess : Session) (args : List Str) :
    (mkbucketCmd ok s3 sess args).sess.currentPrefix = sess.currentPrefix ∧
      (sess.currentBucket ≠ [] → (mkbucketCmd ok s3 sess args).sess = sess) := by
  unfold mkbucketCmd
  split
  · exact ⟨rfl, fun _ => rfl⟩
  · dsimp only
    split_ifs with h1 h2
    · exact ⟨rfl, fun hb => absurd h2 (by simp [length_beq_zero_false hb])⟩
    · exact ⟨rfl, fun _ => rfl⟩
    · exact ⟨rfl, fun _ => rfl⟩

/-- `rmbucket` either keeps the session or, exactly when the deleted
bucket is the entered one, resets it to root. -/
theorem rmbucketCmd_sess (ok : Op → Bool) (s3 : S3) (sess : Session)
    (args : List Str) (inputs : List Str) :
    (rmbucketCmd ok s3 sess args inputs).sess = sess ∨
      (sess.currentBucket = args.headD [] ∧
        (rmbucketCmd ok s3 sess args inputs).sess = ⟨[], []⟩) := by
  unfold rmbucketCmd
  split
  · exact Or.inl rfl
  · dsimp only
    by_cases h1 : (!bucketExists s3 (args.headD [])) = true
    · rw [if_pos h1]; exact Or.inl rfl
    · rw [if_neg h1]
      cases inputs with
      | nil => exact Or.inl rfl
      | cons str1 rest =>
        dsimp only
        by_cases h2 : (!str1 == args.headD []) = true
        · rw [if_pos h2]; exact Or.inl rfl
        · rw [if_neg h2]
          cases rest with
          | nil => exact Or.inl rfl
          | cons str2 tail =>
            dsimp only
            by_cases h3 : (!str2 == strOf "DELETE") = true
            · rw [if_pos h3]; exact Or.inl rfl
            · rw [if_neg h3]
              cases hz : (rmLoop ok (args.headD [])
                  (listRecursive s3 (args.headD []) []) s3 []).2.2 with
              | some e => exact Or.inl rfl
              | none =>
                dsimp only
                split_ifs with h4 h5
                · exact Or.inr ⟨by simpa using h5, rfl⟩
                · exact Or.inl rfl
                · exact Or.inl rfl

/-! ## C8: the prefix invariant -/

/-- Appending a separator establishes the separator suffix. -/
theorem hasSuffix_append_slash (x : Str) : hasSuffix (x ++ ['/']) ['/'] = true := by
  simp [hasSuffix, List.isSuffixOf, List.reverse_append, List.isPrefixOf]

/-- Popping a segment keeps the prefix invariant. -/
theorem parentPrefix_inv (p : Str) : prefixInv (parentPrefix p) := by
  rw [parentPrefix_eq]
  split_ifs
  · exact Or.inr (hasSuffix_append_slash _)
  · exact Or.inl rfl

/-- `enter` keeps the prefix invariant (it resets the prefix). -/
theorem enterCmd_prefixInv (s3 : S3) (sess : Session) (args : List Str)
    (h : prefixInv sess.currentPrefix) :
    prefixInv (enterCmd s3 sess args).1.currentPrefix := by
  unfold enterCmd
  split
  · exact h
  · split_ifs
    · exact Or.inl rfl
    · exact h

/-- `cd` keeps the prefix invariant in every branch. -/
theorem cdCmd_prefixInv (s3 : S3) (sess : Session) (args : List Str)
    (h : prefixInv sess.currentPrefix) :
    prefixInv (cdCmd s3 sess args).1.currentPrefix := by
  unfold cdCmd
  split
  · exact h
  · dsimp only
    split_ifs with h1 h2 h3 h4 h5 h6
    · exact h
    · exact h
    · exact enterCmd_prefixInv _ _ _ h
    · exact parentPrefix_inv _
    · exact h
    · exact h
    · exact Or.inr (hasSuffix_append_slash _)

/-- C8: every verb preserves the invariant that the current prefix is
empty or ends with the separator `"/"`. -/
theorem prefix_invariant_preserved (v : Verb) (lfs : LocalFS) (ok : Op → Bool)
    (s3 : S3) (sess : Session) (args : List Str) (inputs : List Str)
    (h : prefixInv sess.currentPrefix) :
    prefixInv (execVerb v lfs ok s3 sess args inputs).sess.currentPrefix := by
  cases v with
  | help => exact h
  | enter => exact enterCmd_prefixInv s3 sess args h
  | leave =>
    show prefixInv (leaveCmd sess args).1.currentPrefix
    unfold leaveCmd
    split
    · exact h
    · exact Or.inl rfl
  | cd => exact cdCmd_prefixInv s3 sess args h
  | ls =>
    show prefixInv (lsCmd s3 sess args).sess.currentPrefix
    rw [lsCmd_sess]; exact h
  | rm =>
    show prefixInv (rmCmd ok s3 sess args).sess.currentPrefix
    rw [rmCmd_sess]; exact h
  | dl =>
    show prefixInv (dlCmd s3 sess args).sess.currentPrefix
    rw [dlCmd_sess]; exact h
  | ul =>
    show prefixInv (ulCmd lfs ok s3 sess args).sess.currentPrefix
    rw [ulCmd_sess]; exact h
  | mv =>
    show prefixInv (mvCmd ok s3 sess args).sess.currentPrefix
    rw [mvCmd_sess]; exact h
  | cp =>
    show prefixInv (cpCmd ok s3 sess args).sess.currentPrefix
    rw [cpCmd_sess]; exact h
  | touch =>
    show prefixInv (touchCmd ok s3 sess args).sess.currentPrefix
    rw [touchCmd_sess]; exact h
  | cat =>
    show prefixInv (catCmd s3 sess args).sess.currentPrefix
    rw [catCmd_sess]; exact h
  | find =>
    show prefixInv (findCmd s3 sess args).sess.currentPrefix
    rw [findCmd_sess]; exact h
  | list => exact h
  | mkbucket =>
    show prefixInv (mkbucketCmd ok s3 sess args).sess.currentPrefix
    rw [(mkbucketCmd_sess ok s3 sess args).1]; exact h
  | rmbucket =>
    show prefixInv (rmbucketCmd ok s3 sess args inputs).sess.currentPrefix
    rcases rmbucketCmd_sess ok s3 sess args inputs with he | ⟨_, he⟩
    · rw [he]; exact h
    · rw [he]; exact Or.inl rfl

/-- Witness: a `cd` into directory `d` keeps the prefix `"/"`-terminated. -/
theorem prefix_invariant_preserved_witness :
    prefixInv (execVerb .cd ⟨fun _ => false, fun _ => false, fun _ => 0, fun _ => []⟩
      (fun _ => true) ⟨[⟨strOf "b", [⟨strOf "d/", 0⟩]⟩]⟩ ⟨strOf "b", []⟩
      [strOf "d"] []).sess.currentPrefix :=
  prefix_invariant_preserved .cd _ _ _ _ _ _ (by decide)

/-! ## C9: which verbs mutate the session -/

/-- Counterexample to C9 as stated: `mkbucket x` executed at root (so
it neither navigates nor invalidates any entered location) succeeds and
changes the current bucket from `""` to `"x"`: a verb other than
`enter`, `leave`, `cd` and the location-invalidating deletions mutates
the session. -/
theorem session_frame_counterexample :
    (execVerb .mkbucket ⟨fun _ => false, fun _ => false, fun _ => 0, fun _ => []⟩
        (fun _ => true) ⟨[]⟩ ⟨[], []⟩ [strOf "x"] []).sess = ⟨strOf "x", []⟩ ∧
    (execVerb .mkbucket ⟨fun _ => false, fun _ => false, fun _ => 0, fun _ => []⟩
        (fun _ => true) ⟨[]⟩ ⟨[], []⟩ [strOf "x"] []).err = none ∧
    (⟨strOf "x", []⟩ : Session) ≠ (⟨[], []⟩ : Session) := by
  refine ⟨by decide, by decide, by decide⟩

/-- C9 (amended): the session is mutated only by the navigation verbs
`enter`, `leave`, `cd`, by `rmbucket` when the deleted bucket is the
entered one (reset to root), and additionally by `mkbucket`, which on
success with no bucket entered adopts the new bucket as current (the
prefix is never changed by `mkbucket`); every other verb leaves the
session unchanged. -/
theorem session_frame (v : Verb) (lfs : LocalFS) (ok : Op → Bool) (s3 : S3)
    (sess : Session) (args : List Str) (inputs : List Str) :
    (v ≠ .enter → v ≠ .leave → v ≠ .cd → v ≠ .mkbucket → v ≠ .rmbucket →
      (execVerb v lfs ok s3 sess args inputs).sess = sess) ∧
    ((execVerb .mkbucket lfs ok s3 sess args inputs).sess.currentPrefix =
        sess.currentPrefix ∧
      (sess.currentBucket ≠ [] →
        (execVerb .mkbucket lfs ok s3 sess args inputs).sess = sess)) ∧
    ((execVerb .rmbucket lfs ok s3 sess args inputs).sess = sess ∨
      (sess.currentBucket = args.headD [] ∧
        (execVerb .rmbucket lfs ok s3 sess args inputs).sess = ⟨[], []⟩)) := by
  refine ⟨?_, mkbucketCmd_sess ok s3 sess args, rmbucketCmd_sess ok s3 sess args inputs⟩
  intro h1 h2 h3 h4 h5
  cases v with
  | enter => exact absurd rfl h1
  | leave => exact absurd rfl h2
  | cd => exact absurd rfl h3
  | mkbucket => exact absurd rfl h4
  | rmbucket => exact absurd rfl h5
  | help => rfl
  | ls => exact lsCmd_sess s3 sess args
  | rm => exact rmCmd_sess ok s3 sess args
  | dl => exact dlCmd_sess s3 sess args
  | ul => exact ulCmd_sess lfs ok s3 sess args
  | mv => exact mvCmd_sess ok s3 sess args
  | cp => exact cpCmd_sess ok s3 sess args
  | touch => exact touchCmd_sess ok s3 sess args
  | cat => exact catCmd_sess s3 sess args
  | find => exact findCmd_sess s3 sess args
  | list => rfl

/-- Witness: `touch` leaves the session untouched at a concrete state. -/
theorem session_frame_witness :
    (execVerb .touch ⟨fun _ => false, fun _ => false, fun _ => 0, fun _ => []⟩
        (fun _ => true) ⟨[⟨strOf "b", []⟩]⟩ ⟨strOf "b", []⟩ [strOf "a"] []).sess =
      (⟨strOf "b", []⟩ : Session) :=
  (session_frame .touch _ _ _ _ _ _).1 (by decide) (by decide) (by decide)
    (by decide) (by decide)

/-- Witness: `cd ".."` on prefix `"a/b/"` yields prefix `"a/"`. -/
theorem cd_dotdot_pops_segment_witness :
    cdCmd ⟨[]⟩ ⟨strOf "b", strOf "a/b/"⟩ [strOf ".."] =
      (⟨strOf "b", parentPrefix (strOf "a/b/")⟩, none) ∧
    parentPrefix (strOf "a/b/") = strOf "a/" :=
  ⟨(cd_dotdot_pops_segment ⟨[]⟩ ⟨strOf "b", strOf "a/b/"⟩ (by decide)).1,
   (cd_dotdot_pops_segment ⟨[]⟩ ⟨strOf "b", strOf "a/b/"⟩ (by decide)).2.1⟩

end S3Client
